import Mathlib

/-!
Shallow embedding of the Tic Tac Toe game engine from
`src/tic_tac_toe_frontend/src/App.js`.

The engine state is React state: `history` (a list of snapshots, each holding
the 9-cell board and the index of the last move) and `currentStep` (the cursor
into history).  The operations are the source's `handleSquareClick` (placeMark),
`jumpTo`, `restart`, and the derived values `xIsNext`, `winnerInfo` (via
`calculateWinner`), `isDraw` and `statusText`.

Modelling conventions:
* a JS cell value `'X' | 'O' | null` becomes `Option Player`;
* a JS board array becomes `List Cell` (9 entries in every state the view
  produces); reading `squares[i]` out of range yields `undefined`, which is
  falsy exactly like `null`, so it is modelled by `List.getD i none`;
* writing `arr[i] = v` at an index `i ≥ arr.length` extends a JS array to
  length `i + 1`; the intermediate holes read as `undefined` and are modelled
  here as empty cells (`none`), which is observationally equal for every read
  this program performs on a cell it tests for truthiness;
* `history[currentStep]` with an out-of-range cursor is `undefined` in JS and
  any field access on it throws; the model totalises it with `List.getD` and a
  default, which no theorem below relies on: every statement about derived
  values carries the cursor-validity hypothesis.
-/

/-- A mark: the JS strings `'X'` and `'O'`. -/
inductive Player where
  | X : Player
  | O : Player
deriving DecidableEq, Repr

/-- A cell of the board: `'X'`, `'O'` or `null`. -/
abbrev Cell := Option Player

/-- A board: the JS array of 9 cells (out-of-range writes can extend it). -/
abbrev Board := List Cell

/-- One history entry: `{ squares, lastMove }` from `App.js`. -/
structure Snapshot where
  squares : Board
  lastMove : Option Nat
deriving DecidableEq, Repr

instance : Inhabited Snapshot := ⟨⟨[], none⟩⟩

/-- The React state of `App`: `history` and `currentStep`. -/
structure GameState where
  history : List Snapshot
  currentStep : Nat
deriving DecidableEq, Repr

/-- The fixed list of 8 win lines from `calculateWinner`: rows, columns,
diagonals, in source order. -/
def lines : List (Nat × Nat × Nat) :=
  [(0, 1, 2), (3, 4, 5), (6, 7, 8),
   (0, 3, 6), (1, 4, 7), (2, 5, 8),
   (0, 4, 8), (2, 4, 6)]

/-- The value returned by `calculateWinner` on success:
`{ winner, line }`. -/
structure WinInfo where
  winner : Player
  line : List Nat
deriving DecidableEq, Repr

/-- The `for (const [a, b, c] of lines)` loop body of `calculateWinner`:
`if (squares[a] && squares[a] === squares[b] && squares[a] === squares[c])
return { winner: squares[a], line: [a, b, c] }`. -/
def findWin (squares : Board) : List (Nat × Nat × Nat) → Option WinInfo
  | [] => none
  | (a, b, c) :: rest =>
    match squares.getD a none with
    | some p =>
      if squares.getD b none == some p && squares.getD c none == some p
      then some ⟨p, [a, b, c]⟩
      else findWin squares rest
    | none => findWin squares rest

/-- `calculateWinner(squares)` from `App.js`. -/
def calculateWinner (squares : Board) : Option WinInfo :=
  findWin squares lines

/-- The empty 9-cell board `Array(9).fill(null)`. -/
def emptyBoard : Board := List.replicate 9 none

/-- The initial React state: `[{ squares: Array(9).fill(null), lastMove: null }]`
with `currentStep = 0`. -/
def initialState : GameState :=
  { history := [⟨emptyBoard, none⟩], currentStep := 0 }

/-- `current = history[currentStep]` (total model; the default is never used
under the cursor-validity hypothesis carried by the theorems). -/
def current (s : GameState) : Snapshot :=
  s.history.getD s.currentStep default

/-- `xIsNext = currentStep % 2 === 0`. -/
def xIsNext (s : GameState) : Bool :=
  s.currentStep % 2 == 0

/-- `isDraw = !winner && current.squares.every((s) => s !== null)`. -/
def isDraw (s : GameState) : Bool :=
  (calculateWinner (current s).squares).isNone
    && (current s).squares.all (fun c => c.isSome)

/-- The JS assignment `nextSquares[index] = v` on an array copy: in range it
overwrites, out of range it extends the array to length `index + 1` (holes
modelled as empty cells). -/
def setElem (l : Board) (i : Nat) (v : Cell) : Board :=
  if i < l.length then l.set i v
  else l ++ List.replicate (i - l.length) none ++ [v]

/-- `handleSquareClick(index)` from `App.js`: guard
`if (winner || current.squares[index]) return;`, then copy the board, write
the parity mark, truncate history to `[0..currentStep]`, append the new
snapshot and move the cursor to the new end. -/
def handleSquareClick (s : GameState) (index : Nat) : GameState :=
  if (calculateWinner (current s).squares).isSome
      || ((current s).squares.getD index none).isSome then s
  else
    let nextSquares :=
      setElem (current s).squares index
        (some (if xIsNext s then Player.X else Player.O))
    let truncatedHistory := s.history.take (s.currentStep + 1)
    { history := truncatedHistory ++ [⟨nextSquares, some index⟩],
      currentStep := truncatedHistory.length }

/-- `jumpTo(step)` from `App.js`: `setCurrentStep(step)` and nothing else. -/
def jumpTo (s : GameState) (step : Nat) : GameState :=
  { s with currentStep := step }

/-- `restart()` from `App.js`: fresh single-snapshot history, cursor 0. -/
def restart (_ : GameState) : GameState := initialState

/-- Rendering of a mark as the JS string. -/
def markStr : Player → String
  | Player.X => "X"
  | Player.O => "O"

/-- `statusText` from `App.js`: `Winner: m`, else `Draw! No moves left.`,
else `Next Player: m`. -/
def statusText (s : GameState) : String :=
  match calculateWinner (current s).squares with
  | some w => "Winner: " ++ markStr w.winner
  | none =>
    if isDraw s then "Draw! No moves left."
    else "Next Player: " ++ (if xIsNext s then "X" else "O")

/-- The spec's abstract status value `{Winner(mark), Draw, NextPlayer(mark)}`. -/
inductive Status where
  | Winner : Player → Status
  | Draw : Status
  | NextPlayer : Player → Status
deriving DecidableEq, Repr

/-- `getStatus()`: the branch structure of `statusText`, returning the spec's
abstract status instead of the rendered string. -/
def getStatus (s : GameState) : Status :=
  match calculateWinner (current s).squares with
  | some w => Status.Winner w.winner
  | none =>
    if isDraw s then Status.Draw
    else Status.NextPlayer (if xIsNext s then Player.X else Player.O)

/-- Rendering of an abstract status as the source's status string. -/
def statusString : Status → String
  | Status.Winner p => "Winner: " ++ markStr p
  | Status.Draw => "Draw! No moves left."
  | Status.NextPlayer p => "Next Player: " ++ markStr p

/-- Whether a triple `(a, b, c)` wins on `squares`: all three cells equal and
non-empty (the loop condition of `calculateWinner`). -/
def winsAt (squares : Board) : Nat × Nat × Nat → Bool
  | (a, b, c) =>
    match squares.getD a none with
    | some p => squares.getD b none == some p && squares.getD c none == some p
    | none => false

/-- The winner record a triple yields: its first cell's mark with the triple's
indices. -/
def toWinInfo (squares : Board) : Nat × Nat × Nat → Option WinInfo
  | (a, b, c) =>
    match squares.getD a none with
    | some p => some ⟨p, [a, b, c]⟩
    | none => none

/-- Modelled from the spec (§4.1 WinDetector): scan the 8 fixed triples in
order and return, for the first one whose three cells are all equal and
non-empty, that mark together with the triple's indices; `none` otherwise.
`List.find?` returns the first list element satisfying the predicate. -/
def detectSpec (squares : Board) : Option WinInfo :=
  (lines.find? (winsAt squares)).bind (toWinInfo squares)

/-- The mark written by the placement that created snapshot `j` (for `j ≥ 1`):
the cursor was `j - 1` at that moment, so X exactly when `j - 1` is even. -/
def stepMark (j : Nat) : Player :=
  if (j - 1) % 2 = 0 then Player.X else Player.O

/-- Number of cells of a board holding the mark `p`. -/
def countMark (p : Player) (b : Board) : Nat :=
  b.countP (fun c => c == some p)

/-- States reachable from the initial state by the operations with the
arguments the view layer can send: cell indices 0–8, steps inside the
history, and restart. -/
inductive Reachable : GameState → Prop where
  | init : Reachable initialState
  | place {s : GameState} (i : Nat) (hi : i < 9) (hs : Reachable s) :
      Reachable (handleSquareClick s i)
  | jump {s : GameState} (k : Nat) (hk : k < s.history.length)
      (hs : Reachable s) : Reachable (jumpTo s k)
  | reset {s : GameState} (hs : Reachable s) : Reachable (restart s)

/-- Reachable-state invariant: the cursor is in range, snapshot 0 is the
empty board with no last move, every stored board has 9 cells, and
consecutive snapshots differ by exactly one parity-determined mark placed on
an empty cell and recorded in `lastMove`. -/
def StateInv (s : GameState) : Prop :=
  s.currentStep < s.history.length
    ∧ s.history.head? = some ⟨emptyBoard, none⟩
    ∧ (∀ snap ∈ s.history, snap.squares.length = 9)
    ∧ ∀ i prev next, s.history[i]? = some prev →
        s.history[i + 1]? = some next →
        ∃ j, j < 9 ∧ next.lastMove = some j
          ∧ prev.squares.getD j none = none
          ∧ next.squares = prev.squares.set j (some (stepMark (i + 1)))

/-- `getStatus` is faithful to the source: rendering it gives `statusText`. -/
theorem statusText_eq_statusString (s : GameState) :
    statusText s = statusString (getStatus s) := by
  unfold statusText getStatus
  cases calculateWinner (current s).squares with
  | none =>
    by_cases h : isDraw s
    · simp [h, statusString]
    · cases hx : xIsNext s <;> simp [h, hx, statusString, markStr]
  | some w => rfl

theorem winsAt_def (squares : Board) (a b c : Nat) :
    winsAt squares (a, b, c)
      = match squares.getD a none with
        | some p =>
          squares.getD b none == some p && squares.getD c none == some p
        | none => false := rfl

theorem toWinInfo_def (squares : Board) (a b c : Nat) :
    toWinInfo squares (a, b, c)
      = match squares.getD a none with
        | some p => some ⟨p, [a, b, c]⟩
        | none => none := rfl

theorem findWin_cons (squares : Board) (a b c : Nat)
    (rest : List (Nat × Nat × Nat)) :
    findWin squares ((a, b, c) :: rest)
      = match squares.getD a none with
        | some p =>
          if squares.getD b none == some p && squares.getD c none == some p
          then some ⟨p, [a, b, c]⟩
          else findWin squares rest
        | none => findWin squares rest := rfl

theorem findWin_eq_find (squares : Board) (l : List (Nat × Nat × Nat)) :
    findWin squares l = (l.find? (winsAt squares)).bind (toWinInfo squares) := by
  induction l with
  | nil => rfl
  | cons t rest ih =>
    obtain ⟨a, b, c⟩ := t
    rw [findWin_cons]
    split
    case h_1 p h =>
      by_cases hbc :
          (squares.getD b none == some p && squares.getD c none == some p)
            = true
      · have hw : winsAt squares (a, b, c) = true := by
          rw [winsAt_def, h]
          exact hbc
        rw [if_pos hbc, List.find?_cons_of_pos _ hw]
        show _ = toWinInfo squares (a, b, c)
        rw [toWinInfo_def, h]
      · have hw : ¬ winsAt squares (a, b, c) = true := by
          rw [winsAt_def, h]
          exact hbc
        rw [if_neg hbc, List.find?_cons_of_neg _ hw]
        exact ih
    case h_2 h =>
      have hw : ¬ winsAt squares (a, b, c) = true := by
        rw [winsAt_def, h]
        exact Bool.false_ne_true
      rw [List.find?_cons_of_neg _ hw]
      exact ih

/-- C1: for every board, the win detector examines exactly the 8 fixed triples
of `lines` in source order (rows, then columns, then diagonals) and returns,
for the first triple whose three cells are all equal and non-empty, that mark
together with that triple's indices; if no triple qualifies it returns `none`.
(`detectSpec` is that first-match description, via `List.find?`.) -/
theorem calculateWinner_spec (squares : Board) :
    calculateWinner squares = detectSpec squares :=
  findWin_eq_find squares lines

/-- C3: if a winner exists at the current snapshot or the target cell is
non-empty, `handleSquareClick` is a silent no-op: the whole state (board,
history, cursor) is unchanged, and being a total function it raises nothing. -/
theorem handleSquareClick_noop (s : GameState) (index : Nat)
    (h : (calculateWinner (current s).squares).isSome = true
       ∨ ((current s).squares.getD index none).isSome = true) :
    handleSquareClick s index = s := by
  have hguard : ((calculateWinner (current s).squares).isSome
      || ((current s).squares.getD index none).isSome) = true := by
    rcases h with h | h
    · rw [h, Bool.true_or]
    · rw [h, Bool.or_true]
  unfold handleSquareClick
  rw [if_pos hguard]

theorem handleSquareClick_noop_witness :
    ((current (handleSquareClick initialState 0)).squares.getD 0 none).isSome
        = true
      ∧ handleSquareClick (handleSquareClick initialState 0) 0
        = handleSquareClick initialState 0 :=
  ⟨by decide,
   handleSquareClick_noop (handleSquareClick initialState 0) 0
     (Or.inr (by decide))⟩

/-- C7: for every valid step `k < length(History)`, `jumpTo k` sets the cursor
to `k` and leaves the history entirely unchanged; consequently it is
idempotent, so every derived value (status included) agrees between one and
two applications. -/
theorem jumpTo_spec (s : GameState) (k : Nat) (_hk : k < s.history.length) :
    (jumpTo s k).currentStep = k
      ∧ (jumpTo s k).history = s.history
      ∧ jumpTo (jumpTo s k) k = jumpTo s k
      ∧ getStatus (jumpTo (jumpTo s k) k) = getStatus (jumpTo s k) :=
  ⟨rfl, rfl, rfl, rfl⟩

theorem jumpTo_spec_witness :
    0 < initialState.history.length
      ∧ ((jumpTo initialState 0).currentStep = 0
          ∧ (jumpTo initialState 0).history = initialState.history
          ∧ jumpTo (jumpTo initialState 0) 0 = jumpTo initialState 0
          ∧ getStatus (jumpTo (jumpTo initialState 0) 0)
            = getStatus (jumpTo initialState 0)) :=
  ⟨by decide, jumpTo_spec initialState 0 (by decide)⟩

/-- C8: from every prior state, `restart` produces the state whose history is
the single snapshot of the empty 9-cell board with `lastMove = none` and whose
cursor is 0. -/
theorem restart_spec (s : GameState) :
    (restart s).history = [⟨List.replicate 9 none, none⟩]
      ∧ (restart s).currentStep = 0 :=
  ⟨rfl, rfl⟩

theorem setElem_of_lt (l : Board) (i : Nat) (v : Cell) (h : i < l.length) :
    setElem l i v = l.set i v := if_pos h

theorem length_setElem_of_lt (l : Board) (i : Nat) (v : Cell)
    (h : i < l.length) : (setElem l i v).length = l.length := by
  rw [setElem_of_lt l i v h, List.length_set]

theorem length_setElem_of_ge (l : Board) (i : Nat) (v : Cell)
    (h : l.length ≤ i) : (setElem l i v).length = i + 1 := by
  unfold setElem
  rw [if_neg (by omega)]
  simp only [List.length_append, List.length_replicate, List.length_singleton]
  omega

theorem getElem?_setElem_self (l : Board) (i : Nat) (v : Cell) :
    (setElem l i v)[i]? = some v := by
  unfold setElem
  split
  case isTrue h => simp [List.getElem?_set_eq_of_lt v h]
  case isFalse h =>
    have hlen : (l ++ List.replicate (i - l.length) (none : Cell)).length
        = i := by
      simp only [List.length_append, List.length_replicate]
      omega
    rw [List.getElem?_append_right (by rw [hlen]), hlen]
    simp

theorem getD_setElem_self (l : Board) (i : Nat) (v : Cell) :
    (setElem l i v).getD i none = v := by
  rw [List.getD_eq_getElem?_getD, getElem?_setElem_self]
  rfl

/-- The accepted-placement branch of `handleSquareClick`, as one record
equation: history truncated to the cursor prefix, new snapshot appended,
cursor moved to the appended snapshot's index. -/
theorem handleSquareClick_eq (s : GameState) (i : Nat)
    (hwin : calculateWinner (current s).squares = none)
    (hempty : (current s).squares.getD i none = none) :
    handleSquareClick s i
      = { history := s.history.take (s.currentStep + 1)
            ++ [⟨setElem (current s).squares i
                  (some (if xIsNext s then Player.X else Player.O)), some i⟩],
          currentStep := (s.history.take (s.currentStep + 1)).length } := by
  have hg : ¬ ((calculateWinner (current s).squares).isSome
      || ((current s).squares.getD i none).isSome) = true := by
    rw [hwin, hempty]
    exact Bool.false_ne_true
  unfold handleSquareClick
  rw [if_neg hg]

/-- The snapshot at the cursor after an accepted placement is the appended
one. -/
theorem current_handleSquareClick (s : GameState) (i : Nat)
    (hwin : calculateWinner (current s).squares = none)
    (hempty : (current s).squares.getD i none = none) :
    current (handleSquareClick s i)
      = ⟨setElem (current s).squares i
          (some (if xIsNext s then Player.X else Player.O)), some i⟩ := by
  rw [handleSquareClick_eq s i hwin hempty]
  unfold current
  rw [List.getD_eq_getElem?_getD,
    List.getElem?_append_right (Nat.le_refl _)]
  simp

/-- C2: when the cursor is valid and placement at `i` is legal (no winner at
the current snapshot, cell `i` empty), `handleSquareClick i` truncates the
history to the prefix `[0..cursor]`, appends one snapshot with
`lastMove = i`, and sets the cursor to the new last index; the new history
length is `cursor + 2`, so all snapshots beyond the old cursor are
discarded. -/
theorem handleSquareClick_truncates (s : GameState) (i : Nat)
    (hcs : s.currentStep < s.history.length)
    (hwin : calculateWinner (current s).squares = none)
    (hempty : (current s).squares.getD i none = none) :
    (handleSquareClick s i).history
        = s.history.take (s.currentStep + 1)
          ++ [⟨setElem (current s).squares i
                (some (if xIsNext s then Player.X else Player.O)), some i⟩]
      ∧ (handleSquareClick s i).currentStep = s.currentStep + 1
      ∧ (handleSquareClick s i).history.length = s.currentStep + 2 := by
  have hlen : (s.history.take (s.currentStep + 1)).length
      = s.currentStep + 1 := by
    rw [List.length_take]
    omega
  rw [handleSquareClick_eq s i hwin hempty]
  refine ⟨rfl, hlen, ?_⟩
  show (s.history.take (s.currentStep + 1) ++ _).length = s.currentStep + 2
  rw [List.length_append, hlen, List.length_singleton]

theorem handleSquareClick_truncates_witness :
    ((jumpTo (handleSquareClick initialState 0) 0).currentStep
        < (jumpTo (handleSquareClick initialState 0) 0).history.length
      ∧ calculateWinner
          (current (jumpTo (handleSquareClick initialState 0) 0)).squares
        = none
      ∧ (current (jumpTo (handleSquareClick initialState 0) 0)).squares.getD
          4 none = none)
    ∧ ((handleSquareClick (jumpTo (handleSquareClick initialState 0) 0)
          4).history
        = (jumpTo (handleSquareClick initialState 0) 0).history.take 1
          ++ [⟨setElem
                (current (jumpTo (handleSquareClick initialState 0) 0)).squares
                4
                (some (if xIsNext (jumpTo (handleSquareClick initialState 0) 0)
                       then Player.X else Player.O)), some 4⟩]
      ∧ (handleSquareClick (jumpTo (handleSquareClick initialState 0) 0)
          4).currentStep = 1
      ∧ (handleSquareClick (jumpTo (handleSquareClick initialState 0) 0)
          4).history.length = 2) :=
  ⟨⟨by decide, by decide, by decide⟩,
   handleSquareClick_truncates (jumpTo (handleSquareClick initialState 0) 0) 4
     (by decide) (by decide) (by decide)⟩

theorem xIsNext_parity (s : GameState) :
    (if xIsNext s then Player.X else Player.O)
      = if s.currentStep % 2 = 0 then Player.X else Player.O := by
  by_cases h : s.currentStep % 2 = 0 <;> simp [xIsNext, h]

/-- C6: the turn owner is derived purely from cursor parity — X when the
cursor is even, O when odd — and every accepted placement writes exactly that
player's mark into the chosen cell; moreover, in the scenario
"place X at 0, jumpTo 0, place at 4" the mark placed at 4 is again X, the
history has length 2, and the board holds only that X at index 4. -/
theorem placeMark_parity_and_scenario :
    (∀ (s : GameState) (i : Nat),
        calculateWinner (current s).squares = none →
        (current s).squares.getD i none = none →
        (current (handleSquareClick s i)).squares.getD i none
          = some (if s.currentStep % 2 = 0 then Player.X else Player.O))
    ∧ (handleSquareClick (jumpTo (handleSquareClick initialState 0) 0)
        4).history.length = 2
    ∧ (current (handleSquareClick (jumpTo (handleSquareClick initialState 0) 0)
        4)).squares
      = (List.replicate 9 (none : Cell)).set 4 (some Player.X) := by
  refine ⟨?_, by decide, by decide⟩
  intro s i hwin hempty
  rw [current_handleSquareClick s i hwin hempty]
  show (setElem (current s).squares i _).getD i none = _
  rw [getD_setElem_self, xIsNext_parity]

theorem placeMark_parity_and_scenario_witness :
    (calculateWinner (current initialState).squares = none
      ∧ (current initialState).squares.getD 0 none = none)
    ∧ (current (handleSquareClick initialState 0)).squares.getD 0 none
      = some (if initialState.currentStep % 2 = 0 then Player.X else Player.O)
    :=
  ⟨⟨by decide, by decide⟩,
   placeMark_parity_and_scenario.1 initialState 0 (by decide) (by decide)⟩

/-- C5 counterexample: `jumpTo` with the out-of-range step 1 on the initial
state (history length 1) leaves the cursor at 1, violating the claimed
`cursor < length(History)`; the code performs no validation. -/
theorem out_of_range_counterexample :
    ¬ ((jumpTo initialState 1).currentStep
        < (jumpTo initialState 1).history.length) := by
  decide

/-- C5 amended: out-of-range arguments are not validated. `jumpTo step`
always leaves the history (hence every stored 9-cell board) unchanged but
sets the cursor to `step` even when that is out of range; `handleSquareClick`
with an index at or beyond the board length on a winnerless snapshot passes
the guard (the JS read yields `undefined`, which is falsy) and appends a
snapshot whose board has `index + 1` cells. Neither operation raises an
error. -/
theorem out_of_range_behavior :
    (∀ (s : GameState) (step : Nat),
        (jumpTo s step).history = s.history
          ∧ (jumpTo s step).currentStep = step)
    ∧ (∀ (s : GameState) (i : Nat),
        (current s).squares.length ≤ i →
        calculateWinner (current s).squares = none →
        (handleSquareClick s i).history
            = s.history.take (s.currentStep + 1)
              ++ [⟨setElem (current s).squares i
                    (some (if xIsNext s then Player.X else Player.O)),
                   some i⟩]
          ∧ (setElem (current s).squares i
              (some (if xIsNext s then Player.X else Player.O))).length
            = i + 1) := by
  refine ⟨fun s step => ⟨rfl, rfl⟩, ?_⟩
  intro s i hge hwin
  have hempty : (current s).squares.getD i none = none := by
    rw [List.getD_eq_getElem?_getD, List.getElem?_eq_none hge]
    rfl
  exact ⟨congrArg GameState.history (handleSquareClick_eq s i hwin hempty),
    length_setElem_of_ge _ _ _ hge⟩

theorem out_of_range_behavior_witness :
    ((jumpTo initialState 3).history = initialState.history
      ∧ (jumpTo initialState 3).currentStep = 3)
    ∧ ((current initialState).squares.length ≤ 9
        ∧ calculateWinner (current initialState).squares = none)
    ∧ ((handleSquareClick initialState 9).history
        = initialState.history.take 1
          ++ [⟨setElem (current initialState).squares 9
                (some (if xIsNext initialState then Player.X else Player.O)),
               some 9⟩]
      ∧ (setElem (current initialState).squares 9
          (some (if xIsNext initialState then Player.X else Player.O))).length
        = 10) :=
  ⟨out_of_range_behavior.1 initialState 3,
   ⟨by decide, by decide⟩,
   out_of_range_behavior.2 initialState 9 (by decide) (by decide)⟩

theorem head?_eq_getElem_zero {α : Type} (l : List α) : l.head? = l[0]? := by
  cases l <;> simp

theorem getElem?_currentStep {s : GameState}
    (h : s.currentStep < s.history.length) :
    s.history[s.currentStep]? = some (current s) := by
  unfold current
  rw [List.getD_eq_getElem?_getD, List.getElem?_eq_getElem h]
  rfl

theorem stateInv_initialState : StateInv initialState := by
  refine ⟨by decide, rfl, ?_, ?_⟩
  · intro snap hsnap
    rw [show initialState.history = [⟨emptyBoard, none⟩] from rfl,
      List.mem_singleton] at hsnap
    rw [hsnap]
    rfl
  · intro i prev next h1 h2
    have hlen : initialState.history.length = 1 := rfl
    rw [List.getElem?_eq_none (by rw [hlen]; omega)] at h2
    exact Option.noConfusion h2

theorem stateInv_jumpTo {s : GameState} (k : Nat) (hk : k < s.history.length)
    (hinv : StateInv s) : StateInv (jumpTo s k) := by
  obtain ⟨-, hhead, hb9, hchain⟩ := hinv
  exact ⟨hk, hhead, hb9, hchain⟩

theorem stateInv_handleSquareClick {s : GameState} (i : Nat) (hi : i < 9)
    (hinv : StateInv s) : StateInv (handleSquareClick s i) := by
  obtain ⟨hcs, hhead, hb9, hchain⟩ := hinv
  by_cases hg : ((calculateWinner (current s).squares).isSome
      || ((current s).squares.getD i none).isSome) = true
  · have hid : handleSquareClick s i = s := by
      unfold handleSquareClick
      rw [if_pos hg]
    rw [hid]
    exact ⟨hcs, hhead, hb9, hchain⟩
  · have hgf : ((calculateWinner (current s).squares).isSome
        || ((current s).squares.getD i none).isSome) = false :=
      Bool.eq_false_iff.mpr hg
    have hwin : calculateWinner (current s).squares = none := by
      cases hW : calculateWinner (current s).squares
      · rfl
      · rw [hW] at hgf
        simp at hgf
    have hempty : (current s).squares.getD i none = none := by
      cases hE : (current s).squares.getD i none
      · rfl
      · rw [hE] at hgf
        simp at hgf
    have hcur : s.history[s.currentStep]? = some (current s) :=
      getElem?_currentStep hcs
    have hcur9 : (current s).squares.length = 9 :=
      hb9 (current s) (List.getElem?_mem hcur)
    have hTlen : (s.history.take (s.currentStep + 1)).length
        = s.currentStep + 1 := by
      rw [List.length_take]
      omega
    rw [handleSquareClick_eq s i hwin hempty]
    refine ⟨?_, ?_, ?_, ?_⟩
    · show (s.history.take (s.currentStep + 1)).length
        < (s.history.take (s.currentStep + 1) ++ [_]).length
      rw [List.length_append, List.length_singleton]
      omega
    · show (s.history.take (s.currentStep + 1) ++ [_]).head? = _
      rw [List.head?_append_of_ne_nil]
      · rw [head?_eq_getElem_zero,
          List.getElem?_take_of_lt (by omega : 0 < s.currentStep + 1),
          ← head?_eq_getElem_zero]
        exact hhead
      · intro hT
        rw [hT] at hTlen
        simp at hTlen
    · intro snap hsnap
      rcases List.mem_append.mp hsnap with hmem | hmem
      · exact hb9 snap (List.take_subset _ _ hmem)
      · rw [List.mem_singleton] at hmem
        rw [hmem]
        show (setElem (current s).squares i _).length = 9
        rw [setElem_of_lt _ _ _ (by omega), List.length_set]
        exact hcur9
    · intro i' prev next h1 h2
      have hi2 := (List.getElem?_eq_some.mp h2).1
      rw [List.length_append, hTlen, List.length_singleton] at hi2
      by_cases hlt : i' + 1 < s.currentStep + 1
      · have h1' : s.history[i']? = some prev := by
          rw [List.getElem?_append_left (by omega),
            List.getElem?_take_of_lt (by omega)] at h1
          exact h1
        have h2' : s.history[i' + 1]? = some next := by
          rw [List.getElem?_append_left (by omega),
            List.getElem?_take_of_lt (by omega)] at h2
          exact h2
        exact hchain i' prev next h1' h2'
      · have hieq : i' = s.currentStep := by omega
        subst hieq
        have h1' : prev = current s := by
          rw [List.getElem?_append_left (by omega),
            List.getElem?_take_of_lt (by omega), hcur] at h1
          exact (Option.some.inj h1).symm
        have h2' : next = ⟨setElem (current s).squares i
            (some (if xIsNext s then Player.X else Player.O)), some i⟩ := by
          rw [List.getElem?_append_right (by rw [hTlen]), hTlen] at h2
          simp at h2
          exact h2.symm
        subst h1'
        refine ⟨i, hi, ?_, hempty, ?_⟩
        · rw [h2']
        · rw [h2']
          show setElem (current s).squares i _
            = (current s).squares.set i (some (stepMark (s.currentStep + 1)))
          rw [setElem_of_lt _ _ _ (by omega)]
          have hm : (if xIsNext s then Player.X else Player.O)
              = stepMark (s.currentStep + 1) := by
            unfold stepMark
            rw [Nat.add_sub_cancel]
            exact xIsNext_parity s
          rw [hm]

theorem reachable_stateInv {s : GameState} (hs : Reachable s) : StateInv s := by
  induction hs with
  | init => exact stateInv_initialState
  | place i hi hs ih => exact stateInv_handleSquareClick i hi ih
  | jump k hk hs ih => exact stateInv_jumpTo k hk ih
  | reset hs ih => exact stateInv_initialState

theorem countMark_set_none (p q : Player) (b : Board) (j : Nat)
    (hj : j < b.length) (hb : b.getD j none = none) :
    countMark p (b.set j (some q))
      = countMark p b + (if q = p then 1 else 0) := by
  induction b generalizing j with
  | nil => simp at hj
  | cons c rest ih =>
    cases j with
    | zero =>
      have hc : c = none := by simpa using hb
      subst hc
      show countMark p (some q :: rest) = countMark p (none :: rest) + _
      unfold countMark
      rw [List.countP_cons, List.countP_cons]
      by_cases hq : q = p
      · subst hq
        simp
      · have e1 : ((some q : Cell) == some p) = false := by
          simp [hq]
        have e2 : ((none : Cell) == some p) = false := rfl
        rw [e1, e2, if_neg hq]
        simp
    | succ j' =>
      have hj' : j' < rest.length := Nat.lt_of_succ_lt_succ hj
      have hb' : rest.getD j' none = none := by simpa using hb
      show countMark p (c :: rest.set j' (some q))
        = countMark p (c :: rest) + _
      unfold countMark
      rw [List.countP_cons, List.countP_cons]
      have hrec := ih j' hj' hb'
      unfold countMark at hrec
      omega

theorem countP_isSome_eq (b : Board) :
    b.countP (fun c => c.isSome)
      = countMark Player.X b + countMark Player.O b := by
  induction b with
  | nil => rfl
  | cons c rest ih =>
    unfold countMark at ih ⊢
    rcases c with _ | p
    · simp [List.countP_cons, ih]
    · cases p <;> simp [List.countP_cons, ih] <;> omega

theorem stateInv_counts {s : GameState} (hinv : StateInv s) :
    ∀ k snap, s.history[k]? = some snap →
      countMark Player.X snap.squares = (k + 1) / 2
        ∧ countMark Player.O snap.squares = k / 2 := by
  obtain ⟨-, hhead, hb9, hchain⟩ := hinv
  intro k
  induction k with
  | zero =>
    intro snap h0
    rw [← head?_eq_getElem_zero, hhead] at h0
    have hsnap : snap = ⟨emptyBoard, none⟩ := (Option.some.inj h0).symm
    subst hsnap
    constructor <;> decide
  | succ k ih =>
    intro snap hk1
    have hklt : k + 1 < s.history.length := (List.getElem?_eq_some.mp hk1).1
    have hk : k < s.history.length := by omega
    obtain ⟨prev, hprev⟩ : ∃ prev, s.history[k]? = some prev := by
      rw [List.getElem?_eq_getElem hk]
      exact ⟨_, rfl⟩
    obtain ⟨j, hj9, hlm, hcell, hset⟩ := hchain k prev snap hprev hk1
    have hprev9 : prev.squares.length = 9 :=
      hb9 prev (List.getElem?_mem hprev)
    obtain ⟨ihX, ihO⟩ := ih prev hprev
    have hX := countMark_set_none Player.X (stepMark (k + 1)) prev.squares j
      (by omega) hcell
    have hO := countMark_set_none Player.O (stepMark (k + 1)) prev.squares j
      (by omega) hcell
    have hsm : stepMark (k + 1)
        = if k % 2 = 0 then Player.X else Player.O := by
      unfold stepMark
      rw [Nat.add_sub_cancel]
    by_cases hpar : k % 2 = 0
    · rw [hsm, if_pos hpar] at hX hO
      rw [if_pos rfl] at hX
      rw [if_neg (by decide)] at hO
      constructor
      · rw [hset, hsm, if_pos hpar, hX, ihX]
        omega
      · rw [hset, hsm, if_pos hpar, hO, ihO]
        omega
    · rw [hsm, if_neg hpar] at hX hO
      rw [if_neg (by decide)] at hX
      rw [if_pos rfl] at hO
      constructor
      · rw [hset, hsm, if_neg hpar, hX, ihX]
        omega
      · rw [hset, hsm, if_neg hpar, hO, ihO]
        omega

/-- C9: in every reachable state the history is a one-move-per-step chain:
snapshot 0 is the empty board with `lastMove = none`, and each later snapshot
equals its predecessor except at exactly the one previously empty index
recorded in its `lastMove`, which now holds a mark.  Snapshots are immutable
values in this model, so no operation mutates a stored snapshot in place. -/
theorem reachable_history_chain (s : GameState) (hs : Reachable s) :
    s.history.head? = some ⟨emptyBoard, none⟩
      ∧ ∀ i prev next, s.history[i]? = some prev →
          s.history[i + 1]? = some next →
          ∃ j p, next.lastMove = some j ∧ j < 9
            ∧ prev.squares.getD j none = none
            ∧ next.squares = prev.squares.set j (some p) := by
  obtain ⟨-, hhead, -, hchain⟩ := reachable_stateInv hs
  refine ⟨hhead, fun i prev next h1 h2 => ?_⟩
  obtain ⟨j, hj, hlm, hcell, hset⟩ := hchain i prev next h1 h2
  exact ⟨j, stepMark (i + 1), hlm, hj, hcell, hset⟩

theorem reachable_history_chain_witness :
    Reachable (handleSquareClick initialState 0)
      ∧ ((handleSquareClick initialState 0).history.head?
            = some ⟨emptyBoard, none⟩
        ∧ ∀ i prev next,
            (handleSquareClick initialState 0).history[i]? = some prev →
            (handleSquareClick initialState 0).history[i + 1]? = some next →
            ∃ j p, next.lastMove = some j ∧ j < 9
              ∧ prev.squares.getD j none = none
              ∧ next.squares = prev.squares.set j (some p)) :=
  ⟨Reachable.place 0 (by decide) Reachable.init,
   reachable_history_chain (handleSquareClick initialState 0)
     (Reachable.place 0 (by decide) Reachable.init)⟩

/-- C10: in every reachable state, the board of the snapshot at index `k`
holds exactly `k` non-empty cells — `⌈k/2⌉` of them X and `⌊k/2⌋` O — so the
X count never trails the O count and exceeds it by at most one. -/
theorem reachable_board_counts (s : GameState) (hs : Reachable s) :
    ∀ k snap, s.history[k]? = some snap →
      snap.squares.countP (fun c => c.isSome) = k
        ∧ countMark Player.X snap.squares = (k + 1) / 2
        ∧ countMark Player.O snap.squares = k / 2
        ∧ countMark Player.O snap.squares ≤ countMark Player.X snap.squares
        ∧ countMark Player.X snap.squares
            ≤ countMark Player.O snap.squares + 1 := by
  intro k snap hk
  obtain ⟨hX, hO⟩ := stateInv_counts (reachable_stateInv hs) k snap hk
  refine ⟨?_, hX, hO, ?_, ?_⟩
  · rw [countP_isSome_eq, hX, hO]
    omega
  · rw [hX, hO]
    omega
  · rw [hX, hO]
    omega

theorem reachable_board_counts_witness :
    Reachable (handleSquareClick initialState 0)
      ∧ (handleSquareClick initialState 0).history[1]?
          = some ⟨setElem emptyBoard 0 (some Player.X), some 0⟩
      ∧ ((setElem emptyBoard 0 (some Player.X)).countP (fun c => c.isSome)
            = 1
        ∧ countMark Player.X (setElem emptyBoard 0 (some Player.X))
            = (1 + 1) / 2
        ∧ countMark Player.O (setElem emptyBoard 0 (some Player.X)) = 1 / 2
        ∧ countMark Player.O (setElem emptyBoard 0 (some Player.X))
            ≤ countMark Player.X (setElem emptyBoard 0 (some Player.X))
        ∧ countMark Player.X (setElem emptyBoard 0 (some Player.X))
            ≤ countMark Player.O (setElem emptyBoard 0 (some Player.X)) + 1) :=
  ⟨Reachable.place 0 (by decide) Reachable.init, by decide,
   reachable_board_counts (handleSquareClick initialState 0)
     (Reachable.place 0 (by decide) Reachable.init) 1
     ⟨setElem emptyBoard 0 (some Player.X), some 0⟩ (by decide)⟩

theorem all_isSome_iff (l : Board) (h : l.length = 9) :
    (l.all (fun c => c.isSome)) = true
      ↔ ∀ j, j < 9 → (l.getD j none).isSome = true := by
  rw [List.all_eq_true]
  constructor
  · intro hall j hj
    have hj' : j < l.length := by omega
    rw [List.getD_eq_getElem?_getD, List.getElem?_eq_getElem hj']
    exact hall _ (List.getElem_mem hj')
  · intro hall c hc
    obtain ⟨j, hj', hcj⟩ := List.mem_iff_getElem.mp hc
    have hj9 := hall j (by omega)
    rw [List.getD_eq_getElem?_getD, List.getElem?_eq_getElem hj'] at hj9
    rw [← hcj]
    exact hj9

theorem getStatus_of_some {s : GameState} {w : WinInfo}
    (hw : calculateWinner (current s).squares = some w) :
    getStatus s = Status.Winner w.winner := by
  unfold getStatus
  rw [hw]

theorem getStatus_of_none {s : GameState}
    (hw : calculateWinner (current s).squares = none) :
    getStatus s = if isDraw s then Status.Draw
      else Status.NextPlayer (if xIsNext s then Player.X else Player.O) := by
  unfold getStatus
  rw [hw]

theorem isDraw_eq_all {s : GameState}
    (hw : calculateWinner (current s).squares = none) :
    isDraw s = (current s).squares.all (fun c => c.isSome) := by
  unfold isDraw
  rw [hw]
  rfl

/-- C4: `getStatus` returns Winner(mark) whenever the win detector finds a
winner on the current snapshot's board; with no winner it returns Draw
exactly when all 9 cells are non-empty, and otherwise NextPlayer of the
parity-derived turn owner.  Winner takes precedence over Draw, and Draw is
reported only with no winner and a full board. -/
theorem getStatus_spec (s : GameState)
    (hb : (current s).squares.length = 9) :
    (∀ w, calculateWinner (current s).squares = some w →
        getStatus s = Status.Winner w.winner)
      ∧ (calculateWinner (current s).squares = none →
          (∀ j, j < 9 → ((current s).squares.getD j none).isSome = true) →
          getStatus s = Status.Draw)
      ∧ (calculateWinner (current s).squares = none →
          (∃ j, j < 9 ∧ (current s).squares.getD j none = none) →
          getStatus s = Status.NextPlayer
            (if s.currentStep % 2 = 0 then Player.X else Player.O)) := by
  refine ⟨fun w hw => getStatus_of_some hw, ?_, ?_⟩
  · intro hwin hfull
    rw [getStatus_of_none hwin]
    have hd : isDraw s = true := by
      rw [isDraw_eq_all hwin]
      exact (all_isSome_iff _ hb).mpr hfull
    rw [hd]
    rfl
  · intro hwin hex
    obtain ⟨j, hj, hnone⟩ := hex
    rw [getStatus_of_none hwin]
    have hd : isDraw s = false := by
      rw [isDraw_eq_all hwin]
      refine Bool.eq_false_iff.mpr fun hall => ?_
      have hsome := (all_isSome_iff _ hb).mp hall j hj
      rw [hnone] at hsome
      exact Bool.false_ne_true hsome
    rw [hd, xIsNext_parity]
    rfl

theorem getStatus_spec_witness :
    (current initialState).squares.length = 9
      ∧ ((∀ w, calculateWinner (current initialState).squares = some w →
            getStatus initialState = Status.Winner w.winner)
        ∧ (calculateWinner (current initialState).squares = none →
            (∀ j, j < 9 →
              ((current initialState).squares.getD j none).isSome = true) →
            getStatus initialState = Status.Draw)
        ∧ (calculateWinner (current initialState).squares = none →
            (∃ j, j < 9 ∧ (current initialState).squares.getD j none = none) →
            getStatus initialState = Status.NextPlayer
              (if initialState.currentStep % 2 = 0
               then Player.X else Player.O))) :=
  ⟨by decide, getStatus_spec initialState (by decide)⟩
